import Mathlib

/-!
Verification of the endpoint health monitor (`src/app.py`).

The Python program periodically probes HTTP endpoints, classifies each probe
UP or DOWN, and accumulates per-domain `up`/`total` counters which it reports
as availability percentages.  We embed the relevant functions shallowly:

* `getDomain` models `urlparse(url).netloc` as used by `EPM.getDomain`;
* `record` models the `defaultdict` counter update performed inside
  `EPM.checkEndpoint` (lines 54-61 of `app.py`);
* `checkEndpoint` models `EPM.checkEndpoint` as a state transformer over the
  statistics map, taking the transport result (response or exception) as an
  explicit argument;
* `printAvailability` models `EPM.printAvailability`, returning the list of
  printed lines;
* the run loop of `EPM.run` together with the SIGINT handler
  `EPM.handleInterrupt` is modelled as a small-step transition system on
  `LoopState`.

Elapsed times and the percentage computation are modelled over `ℚ`; Python's
built-in `round` (round half to even) is modelled by `roundHalfEven`.
-/

namespace EPM

/-- One monitored target, as loaded from the YAML configuration:
`url` (required), `method` (defaulted to `"GET"` by `loadConfig`),
optional `headers` and `body`. -/
structure EndpointSpec where
  url : String
  method : String := "GET"
  headers : List (String × String) := []
  body : Option String := none
deriving DecidableEq, Repr

/-- The per-domain counters stored in `self.domainStats`:
the `defaultdict` maps each domain to a dict with keys `up` and `total`. -/
structure DomainStats where
  up : Nat
  total : Nat
deriving DecidableEq, Repr

/-- The statistics dictionary `self.domainStats`, in insertion order
(Python dicts preserve insertion order). -/
abbrev StatsMap := List (String × DomainStats)

/-- Dictionary lookup in the statistics map. -/
def lookupStats : StatsMap → String → Option DomainStats
  | [], _ => none
  | (k, s) :: rest, d => if k = d then some s else lookupStats rest d

/-- The counters currently associated with a domain, with the `defaultdict`
default value used when the domain has no entry yet. -/
def statsOf (m : StatsMap) (d : String) : DomainStats :=
  (lookupStats m d).getD { up := 0, total := 0 }

/-- The counter update performed by `checkEndpoint` for one probe outcome:
`self.domainStats[domain]['total'] += 1` and, iff the probe was UP,
`self.domainStats[domain]['up'] += 1`.  A missing entry is created by the
`defaultdict` with value `{'up': 0, 'total': 0}` before the increment,
appended in insertion order. -/
def record : StatsMap → String → Bool → StatsMap
  | [], d, isUp =>
      [(d, { up := if isUp then 1 else 0, total := 1 })]
  | (k, s) :: rest, d, isUp =>
      if k = d then
        (k, { up := s.up + (if isUp then 1 else 0), total := s.total + 1 }) :: rest
      else
        (k, s) :: record rest d isUp

/-- Is `c` allowed in a URL scheme (ascii letters, digits, `+`, `-`, `.`)?
Models `urllib.parse.scheme_chars`. -/
def isSchemeChar (c : Char) : Bool :=
  c.isAlpha || c.isDigit || c = '+' || c = '-' || c = '.'

/-- Split a character list at the first `:`, returning the parts before and
after it, or `none` when there is no `:`.  Used to model how
`urllib.parse.urlparse` strips a leading `scheme:`. -/
def splitOnColon : List Char → Option (List Char × List Char)
  | [] => none
  | c :: rest =>
      if c = ':' then some ([], rest)
      else
        match splitOnColon rest with
        | some (pre, post) => some (c :: pre, post)
        | none => none

/-- Strip a leading `scheme:` from a URL, the way `urlparse` does: the part
before the first `:` is removed exactly when it is nonempty, starts with a
letter and consists of scheme characters only; otherwise the URL is kept. -/
def dropScheme (cs : List Char) : List Char :=
  match splitOnColon cs with
  | none => cs
  | some (pre, post) =>
      match pre with
      | [] => cs
      | c :: rest => if c.isAlpha && (c :: rest).all isSchemeChar then post else cs

/-- The network-location (authority) component extracted by `urlparse`: when
the remainder after the scheme starts with `//`, everything up to the next
`/`, `?` or `#`; otherwise the empty string. -/
def netlocOf (cs : List Char) : List Char :=
  match cs with
  | '/' :: '/' :: rest => rest.takeWhile (fun c => c ≠ '/' && c ≠ '?' && c ≠ '#')
  | _ => []

/-- Model of `EPM.getDomain` (app.py lines 29-31): `urlparse(url).netloc`. -/
def getDomain (url : String) : String :=
  String.mk (netlocOf (dropScheme url.data))

/-- The result of the transport call made by `checkEndpoint`: either a
response with its HTTP status code and the measured elapsed wall-clock
milliseconds, or any raised exception (timeout, connection refused, DNS
failure, malformed response, ...). -/
inductive HttpResult where
  | response (status : Nat) (elapsedMs : ℚ)
  | failure
deriving DecidableEq, Repr

/-- The UP classification computed on the success path of `checkEndpoint`
(app.py line 52): `200 <= response.status < 300 and elapsed_ms < 500`;
a raised exception never classifies UP. -/
def classify : HttpResult → Bool
  | HttpResult.response status elapsedMs =>
      decide (200 ≤ status) && decide (status < 300) && decide (elapsedMs < 500)
  | HttpResult.failure => false

/-- Model of `EPM.checkEndpoint` (app.py lines 33-61) as a state transformer on the
statistics map.  The domain is computed from the endpoint URL; on a response
the UP test and both counter updates run; on any exception only `total` is
incremented (the `except Exception` branch). -/
def checkEndpoint (stats : StatsMap) (endpoint : EndpointSpec) (r : HttpResult) : StatsMap :=
  let domain := getDomain endpoint.url
  match r with
  | HttpResult.response status elapsedMs =>
      let isUp := decide (200 ≤ status) && decide (status < 300) && decide (elapsedMs < 500)
      record stats domain isUp
  | HttpResult.failure =>
      record stats domain false

/-- Python's built-in `round` applied to the exact value: round half to even. -/
def roundHalfEven (q : ℚ) : ℤ :=
  let f := ⌊q⌋
  let r := q - (f : ℚ)
  if r < 1 / 2 then f
  else if (1 : ℚ) / 2 < r then f + 1
  else if f % 2 = 0 then f else f + 1

/-- The availability percentage computed by `printAvailability`
(app.py line 67): `round(100 * stats['up'] / stats['total'])`. -/
def availability (s : DomainStats) : ℤ :=
  roundHalfEven (100 * (s.up : ℚ) / (s.total : ℚ))

/-- One printed report line (app.py line 68). -/
def reportLine (domain : String) (pct : ℤ) : String :=
  domain ++ " has " ++ toString pct ++ "% availability percentage"

/-- Model of `EPM.printAvailability` (app.py lines 63-68), returning the list of
printed lines: one line for each stored domain with `total > 0`, in
dictionary iteration order. -/
def printAvailability (m : StatsMap) : List String :=
  m.filterMap (fun p => if p.2.total > 0 then some (reportLine p.1 (availability p.2)) else none)

/-- The ProbeOutcome of the specification: the domain a probe was recorded
under together with its UP flag.  In the source this pair is implicit in the
control flow of `checkEndpoint`. -/
structure ProbeOutcome where
  domain : String
  success : Bool
deriving DecidableEq, Repr

/-- Apply a sequence of probe outcomes to the statistics map, one `record`
update each, in order — the accumulation a monitoring cycle performs. -/
def applyOutcomes : StatsMap → List ProbeOutcome → StatsMap
  | m, [] => m
  | m, o :: rest => applyOutcomes (record m o.domain o.success) rest

/-- The percentage reported for one domain: the availability of its entry
when the entry exists and passes the `total > 0` guard, `none` otherwise. -/
def reportedPct (m : StatsMap) (d : String) : Option ℤ :=
  match lookupStats m d with
  | some s => if s.total > 0 then some (availability s) else none
  | none => none

/-- The control positions of the `while self.running` loop in `EPM.run`
(app.py lines 92-94): about to test the loop condition, running one
`monitorCycle`, sleeping 15 s, or done. -/
inductive Phase where
  | check
  | cycle
  | sleeping
  | stopped
deriving DecidableEq, Repr

/-- State of the run loop: current control position and the `self.running`
flag. -/
structure LoopState where
  phase : Phase
  running : Bool
deriving DecidableEq, Repr

/-- One internal step of the run loop: the loop condition is tested only at
the top of each iteration; a completed cycle is always followed by
`asyncio.sleep(15)`, and the sleep returns to the condition test. -/
def loopStep (s : LoopState) : LoopState :=
  match s.phase with
  | Phase.check => if s.running then { s with phase := Phase.cycle } else { s with phase := Phase.stopped }
  | Phase.cycle => { s with phase := Phase.sleeping }
  | Phase.sleeping => { s with phase := Phase.check }
  | Phase.stopped => s

/-- Model of `EPM.handleInterrupt` (app.py lines 80-83): the SIGINT handler sets
`self.running = False` and returns; it does not alter the control position. -/
def handleInterrupt (s : LoopState) : LoopState :=
  { s with running := false }

/-- An observable event of the run loop: one internal step, or the arrival
of an external cancellation request. -/
inductive Event where
  | tick
  | interrupt
deriving DecidableEq, Repr

/-- Apply one event to the loop state. -/
def applyEvent (s : LoopState) : Event → LoopState
  | Event.tick => loopStep s
  | Event.interrupt => handleInterrupt s

/-- Run the loop under a sequence of events. -/
def runEvents : LoopState → List Event → LoopState
  | s, [] => s
  | s, e :: rest => runEvents (applyEvent s e) rest

end EPM

namespace EPM

/-- Looking up the recorded domain after `record`: the entry exists and holds
the old counters (default `{0,0}` when absent) with `total` incremented and
`up` incremented iff the outcome was UP. -/
theorem lookupStats_record_self (m : StatsMap) (d : String) (isUp : Bool) :
    lookupStats (record m d isUp) d
      = some { up := (statsOf m d).up + (if isUp then 1 else 0),
               total := (statsOf m d).total + 1 } := by
  induction m with
  | nil => simp [record, lookupStats, statsOf]
  | cons p rest ih =>
      obtain ⟨k, s⟩ := p
      by_cases hkd : k = d
      · subst hkd
        simp [record, lookupStats, statsOf]
      · simp [record, lookupStats, statsOf, hkd, ih]

/-- Looking up any other domain after `record` is unchanged. -/
theorem lookupStats_record_ne (m : StatsMap) (d : String) (isUp : Bool)
    (d2 : String) (h : d2 ≠ d) :
    lookupStats (record m d isUp) d2 = lookupStats m d2 := by
  induction m with
  | nil => simp [record, lookupStats, Ne.symm h]
  | cons p rest ih =>
      obtain ⟨k, s⟩ := p
      by_cases hkd : k = d
      · subst hkd
        simp [record, lookupStats, Ne.symm h]
      · by_cases hk2 : k = d2
        · subst hk2
          simp [record, lookupStats, hkd]
        · simp [record, lookupStats, hkd, hk2, ih]

/-- `statsOf` version of `lookupStats_record_self`. -/
theorem statsOf_record_self (m : StatsMap) (d : String) (isUp : Bool) :
    statsOf (record m d isUp) d
      = { up := (statsOf m d).up + (if isUp then 1 else 0),
          total := (statsOf m d).total + 1 } := by
  simp [statsOf, lookupStats_record_self]

/-- `statsOf` version of `lookupStats_record_ne`. -/
theorem statsOf_record_ne (m : StatsMap) (d : String) (isUp : Bool)
    (d2 : String) (h : d2 ≠ d) :
    statsOf (record m d isUp) d2 = statsOf m d2 := by
  simp [statsOf, lookupStats_record_ne m d isUp d2 h]

/-- Claim C1: the probe classifies UP iff the response status code is in
[200, 300) and the elapsed time is strictly below 500 ms; every other
transport result — including any raised exception — classifies DOWN. -/
theorem claim1_up_classification (r : HttpResult) :
    classify r = true ↔
      ∃ status elapsedMs, r = HttpResult.response status elapsedMs ∧
        200 ≤ status ∧ status < 300 ∧ elapsedMs < 500 := by
  cases r with
  | response status elapsedMs =>
      simp only [classify, Bool.and_eq_true, decide_eq_true_eq]
      constructor
      · rintro ⟨⟨h1, h2⟩, h3⟩
        exact ⟨status, elapsedMs, rfl, h1, h2, h3⟩
      · rintro ⟨s2, e2, heq, h1, h2, h3⟩
        cases heq
        exact ⟨⟨h1, h2⟩, h3⟩
  | failure => simp [classify]

/-- Claim C2: a transport failure is absorbed by `checkEndpoint`: the
function totally returns an updated map in which the failing endpoint's
domain has `total` incremented and `up` unchanged (a DOWN outcome under the
same domain), and every other domain's entry is untouched. -/
theorem claim2_failure_absorbed (stats : StatsMap) (endpoint : EndpointSpec) :
    statsOf (checkEndpoint stats endpoint HttpResult.failure) (getDomain endpoint.url)
        = { up := (statsOf stats (getDomain endpoint.url)).up,
            total := (statsOf stats (getDomain endpoint.url)).total + 1 } ∧
    ∀ d, d ≠ getDomain endpoint.url →
      lookupStats (checkEndpoint stats endpoint HttpResult.failure) d
        = lookupStats stats d := by
  constructor
  · simp [checkEndpoint, statsOf_record_self]
  · intro d hd
    simp [checkEndpoint, lookupStats_record_ne _ _ _ _ hd]

/-- Witness for C2 at a concrete input. -/
theorem claim2_failure_absorbed_witness :
    statsOf (checkEndpoint [] { url := "http://a.com/x" } HttpResult.failure)
        (getDomain "http://a.com/x")
      = { up := (statsOf [] (getDomain "http://a.com/x")).up,
          total := (statsOf [] (getDomain "http://a.com/x")).total + 1 } ∧
    lookupStats (checkEndpoint [] { url := "http://a.com/x" } HttpResult.failure) "b.com"
      = lookupStats [] "b.com" :=
  ⟨(claim2_failure_absorbed [] { url := "http://a.com/x" }).1,
   (claim2_failure_absorbed [] { url := "http://a.com/x" }).2 "b.com" (by decide)⟩

/-- Claim C3: `record` increments the outcome's domain `total` by one,
increments `up` additionally iff the outcome was UP, lazily initializes an
absent entry from `{0,0}`, and leaves every other domain's entry unchanged. -/
theorem claim3_record_semantics (m : StatsMap) (d : String) (isUp : Bool) :
    lookupStats (record m d isUp) d
        = some { up := (statsOf m d).up + (if isUp then 1 else 0),
                 total := (statsOf m d).total + 1 } ∧
    (lookupStats m d = none →
      statsOf m d = { up := 0, total := 0 } ∧
      lookupStats (record m d isUp) d
        = some { up := if isUp then 1 else 0, total := 1 }) ∧
    ∀ d2, d2 ≠ d → lookupStats (record m d isUp) d2 = lookupStats m d2 := by
  refine ⟨lookupStats_record_self m d isUp, ?_, ?_⟩
  · intro hnone
    have hdef : statsOf m d = { up := 0, total := 0 } := by simp [statsOf, hnone]
    refine ⟨hdef, ?_⟩
    rw [lookupStats_record_self, hdef]
    simp
  · intro d2 h
    exact lookupStats_record_ne m d isUp d2 h

/-- Witness for C3 at a concrete input. -/
theorem claim3_record_semantics_witness :
    lookupStats (record [("b.com", ⟨2, 3⟩)] "a.com" true) "a.com"
        = some { up := (statsOf [("b.com", ⟨2, 3⟩)] "a.com").up + (if true then 1 else 0),
                 total := (statsOf [("b.com", ⟨2, 3⟩)] "a.com").total + 1 } ∧
    (statsOf [("b.com", ⟨2, 3⟩)] "a.com" = { up := 0, total := 0 } ∧
      lookupStats (record [("b.com", ⟨2, 3⟩)] "a.com" true) "a.com"
        = some { up := if true then 1 else 0, total := 1 }) ∧
    lookupStats (record [("b.com", ⟨2, 3⟩)] "a.com" true) "b.com"
      = lookupStats [("b.com", ⟨2, 3⟩)] "b.com" :=
  ⟨(claim3_record_semantics [("b.com", ⟨2, 3⟩)] "a.com" true).1,
   (claim3_record_semantics [("b.com", ⟨2, 3⟩)] "a.com" true).2.1 (by decide),
   (claim3_record_semantics [("b.com", ⟨2, 3⟩)] "a.com" true).2.2 "b.com" (by decide)⟩

/-- A filterMap whose function is a guarded map is the map over the filter. -/
theorem filterMap_guard_eq_map_filter {α β : Type} (p : α → Prop) [DecidablePred p]
    (g : α → β) (l : List α) :
    l.filterMap (fun a => if p a then some (g a) else none)
      = (l.filter (fun a => p a)).map g := by
  induction l with
  | nil => rfl
  | cons x xs ih =>
      by_cases hx : p x
      · simp [List.filterMap_cons, List.filter_cons, hx, ih]
      · simp [List.filterMap_cons, List.filter_cons, hx, ih]

/-- A per-entry property preserved by `record`: it must hold for a freshly
created entry and be preserved by the counter increment. -/
theorem record_preserves (P : DomainStats → Prop)
    (hstep : ∀ s : DomainStats, P s →
      ∀ b : Bool, P { up := s.up + (if b then 1 else 0), total := s.total + 1 })
    (hnew : ∀ b : Bool, P { up := if b then 1 else 0, total := 1 })
    (m : StatsMap) (hm : ∀ p ∈ m, P p.2) (d : String) (isUp : Bool) :
    ∀ p ∈ record m d isUp, P p.2 := by
  induction m with
  | nil =>
      intro p hp
      simp only [record, List.mem_singleton] at hp
      subst hp
      exact hnew isUp
  | cons q rest ih =>
      obtain ⟨k, s⟩ := q
      intro p hp
      by_cases hkd : k = d
      · subst hkd
        simp only [record, eq_self_iff_true, if_true, List.mem_cons] at hp
        rcases hp with rfl | hp
        · exact hstep s (hm (k, s) (List.mem_cons_self _ _)) isUp
        · exact hm p (List.mem_cons_of_mem _ hp)
      · simp only [record, if_neg hkd, List.mem_cons] at hp
        rcases hp with rfl | hp
        · exact hm (k, s) (List.mem_cons_self _ _)
        · exact ih (fun q hq => hm q (List.mem_cons_of_mem _ hq)) p hp

/-- A per-entry property preserved by `record` is preserved by any sequence
of recorded outcomes. -/
theorem applyOutcomes_preserves (P : DomainStats → Prop)
    (hstep : ∀ s : DomainStats, P s →
      ∀ b : Bool, P { up := s.up + (if b then 1 else 0), total := s.total + 1 })
    (hnew : ∀ b : Bool, P { up := if b then 1 else 0, total := 1 }) :
    ∀ (os : List ProbeOutcome) (m : StatsMap), (∀ p ∈ m, P p.2) →
      ∀ p ∈ applyOutcomes m os, P p.2 := by
  intro os
  induction os with
  | nil =>
      intro m hm
      simpa [applyOutcomes] using hm
  | cons o rest ih =>
      intro m hm
      simp only [applyOutcomes]
      exact ih _ (record_preserves P hstep hnew m hm o.domain o.success)

/-- Claim C4: in every statistics map reachable from the initial empty map by
recording outcomes, every domain entry satisfies `up ≤ total`. -/
theorem claim4_up_le_total (os : List ProbeOutcome) (d : String) (s : DomainStats)
    (h : (d, s) ∈ applyOutcomes [] os) : s.up ≤ s.total :=
  applyOutcomes_preserves (fun t => t.up ≤ t.total)
    (fun t ht b => by cases b <;> simp <;> omega)
    (fun b => by cases b <;> simp)
    os [] (by simp) (d, s) h

/-- Witness for C4 at a concrete input. -/
theorem claim4_up_le_total_witness :
    (⟨1, 2⟩ : DomainStats).up ≤ (⟨1, 2⟩ : DomainStats).total :=
  claim4_up_le_total [⟨"A", true⟩, ⟨"B", false⟩, ⟨"A", false⟩] "A" ⟨1, 2⟩ (by decide)

/-- Claim C10: every entry of a reachable statistics map has `total ≥ 1`
(entries are only created together with a `total` increment), so the report
guard holds for it: the report contains its line. -/
theorem claim10_entries_total_pos (os : List ProbeOutcome) (d : String) (s : DomainStats)
    (h : (d, s) ∈ applyOutcomes [] os) :
    1 ≤ s.total ∧
    reportLine d (availability s) ∈ printAvailability (applyOutcomes [] os) := by
  have h1 : 1 ≤ s.total :=
    applyOutcomes_preserves (fun t => 1 ≤ t.total)
      (fun t ht b => Nat.le_add_left 1 t.total)
      (fun b => Nat.le_refl 1)
      os [] (by simp) (d, s) h
  refine ⟨h1, ?_⟩
  rw [printAvailability, List.mem_filterMap]
  have hpos : 0 < (d, s).2.total := h1
  exact ⟨(d, s), h, by rw [if_pos hpos]⟩

/-- Witness for C10 at a concrete input. -/
theorem claim10_entries_total_pos_witness :
    1 ≤ (⟨0, 1⟩ : DomainStats).total ∧
    reportLine "B" (availability ⟨0, 1⟩)
      ∈ printAvailability (applyOutcomes [] [⟨"A", true⟩, ⟨"B", false⟩, ⟨"A", false⟩]) :=
  claim10_entries_total_pos [⟨"A", true⟩, ⟨"B", false⟩, ⟨"A", false⟩] "B" ⟨0, 1⟩ (by decide)

/-- Claim C5: the report consists of exactly one line per stored domain with
`total > 0`, in order, of the exact form
`<domain> has <round(100*up/total)>% availability percentage`, the rounding
being round half to even (Python's built-in `round`); domains with
`total = 0` are omitted. -/
theorem claim5_report_shape (m : StatsMap) :
    printAvailability m
      = (m.filter (fun p => 0 < p.2.total)).map
          (fun p => p.1 ++ " has "
              ++ toString (roundHalfEven (100 * (p.2.up : ℚ) / (p.2.total : ℚ)))
              ++ "% availability percentage") := by
  exact filterMap_guard_eq_map_filter (fun p : String × DomainStats => 0 < p.2.total)
    (fun p => p.1 ++ " has "
        ++ toString (roundHalfEven (100 * (p.2.up : ℚ) / (p.2.total : ℚ)))
        ++ "% availability percentage") m

/-- Splitting a list with no colon in its first part finds exactly that split. -/
theorem splitOnColon_no_colon_append (pre post : List Char) (h : ∀ x ∈ pre, x ≠ ':') :
    splitOnColon (pre ++ ':' :: post) = some (pre, post) := by
  induction pre with
  | nil => simp [splitOnColon]
  | cons a as ih =>
      have ha : a ≠ ':' := h a (List.mem_cons_self _ _)
      simp [splitOnColon, ha, ih (fun x hx => h x (List.mem_cons_of_mem _ hx))]

/-- Taking while over an append stops exactly at the first failing element. -/
theorem takeWhile_append_stop {α : Type} (p : α → Bool) (l1 : List α) (x : α) (l2 : List α)
    (h1 : l1.all p = true) (hx : p x = false) :
    (l1 ++ x :: l2).takeWhile p = l1 := by
  induction l1 with
  | nil => simp [List.takeWhile_cons, hx]
  | cons a as ih =>
      rcases List.all_eq_true.mp h1 a (List.mem_cons_self _ _) with ha
      simp [List.takeWhile_cons, ha, ih (List.all_eq_true.mpr
        (fun b hb => List.all_eq_true.mp h1 b (List.mem_cons_of_mem _ hb)))]

/-- Counterexample to C6 as stated: the aggregation key contains no scheme —
two URLs that differ only in scheme map to the same key, and the key is the
bare authority `example.com`, not `scheme+host+port`. -/
theorem claim6_counterexample :
    getDomain "http://example.com/path" = getDomain "https://example.com/path" ∧
    getDomain "http://example.com/path" = "example.com" :=
  ⟨by decide, by decide⟩

/-- Claim C6 (amended): the domain key is the URL's netloc — the authority
component `host[:port]` with the scheme excluded and the path ignored; a URL
with a syntactically valid scheme and a `//` authority yields exactly the
authority characters. -/
theorem claim6_domain_is_netloc (c : Char) (cs : List Char) (host path : List Char)
    (hAlpha : c.isAlpha = true)
    (hScheme : (c :: cs).all isSchemeChar = true)
    (hHost : host.all (fun ch => ch ≠ '/' && ch ≠ '?' && ch ≠ '#') = true) :
    getDomain (String.mk ((c :: cs) ++ ':' :: '/' :: '/' :: (host ++ '/' :: path)))
      = String.mk host := by
  have hnc : ∀ x ∈ c :: cs, x ≠ ':' := by
    intro x hx hcolon
    have hsch := List.all_eq_true.mp hScheme x hx
    rw [hcolon] at hsch
    simp [isSchemeChar] at hsch
  have hdrop : dropScheme ((c :: cs) ++ ':' :: '/' :: '/' :: (host ++ '/' :: path))
      = '/' :: '/' :: (host ++ '/' :: path) := by
    unfold dropScheme
    rw [splitOnColon_no_colon_append _ _ hnc]
    simp [hAlpha, hScheme]
  have htake : List.takeWhile (fun ch => ch ≠ '/' && ch ≠ '?' && ch ≠ '#')
      (host ++ '/' :: path) = host :=
    takeWhile_append_stop _ host '/' path hHost (by decide)
  show String.mk (netlocOf (dropScheme
      ((c :: cs) ++ ':' :: '/' :: '/' :: (host ++ '/' :: path)))) = String.mk host
  rw [hdrop]
  show String.mk (List.takeWhile (fun ch => ch ≠ '/' && ch ≠ '?' && ch ≠ '#')
      (host ++ '/' :: path)) = String.mk host
  rw [htake]

/-- Witness for the amended C6 at a concrete input. -/
theorem claim6_domain_is_netloc_witness :
    getDomain (String.mk (('h' :: "ttp".data) ++ ':' :: '/' :: '/'
        :: ("example.com:8080".data ++ '/' :: "path".data)))
      = String.mk "example.com:8080".data :=
  claim6_domain_is_netloc 'h' "ttp".data "example.com:8080".data "path".data
    (by decide) (by decide) (by decide)

/-- Counterexample to C7 as stated: `checkEndpoint` does mutate the shared
aggregation state — starting from the empty map, one probe leaves the map
changed. -/
theorem claim7_counterexample :
    checkEndpoint [] { url := "http://a.com/" } (HttpResult.response 200 100)
      ≠ ([] : StatsMap) := by
  decide

/-- Claim C7 (amended): `checkEndpoint` applies its probe outcome to the
shared aggregation state directly — its entire effect on the map is one
`record` of its own domain and UP flag, and no other domain's entry
changes. -/
theorem claim7_effect_is_record (stats : StatsMap) (endpoint : EndpointSpec) (r : HttpResult) :
    checkEndpoint stats endpoint r
        = record stats (getDomain endpoint.url) (classify r) ∧
    ∀ d, d ≠ getDomain endpoint.url →
      lookupStats (checkEndpoint stats endpoint r) d = lookupStats stats d := by
  constructor
  · cases r <;> rfl
  · intro d hd
    cases r <;> simp only [checkEndpoint] <;> rw [lookupStats_record_ne _ _ _ _ hd]

/-- Witness for the amended C7 at a concrete input. -/
theorem claim7_effect_is_record_witness :
    checkEndpoint [("x", ⟨1, 1⟩)] { url := "http://a.com/" } HttpResult.failure
        = record [("x", ⟨1, 1⟩)] (getDomain "http://a.com/") (classify HttpResult.failure) ∧
    lookupStats (checkEndpoint [("x", ⟨1, 1⟩)] { url := "http://a.com/" } HttpResult.failure) "x"
      = lookupStats [("x", ⟨1, 1⟩)] "x" :=
  ⟨(claim7_effect_is_record [("x", ⟨1, 1⟩)] { url := "http://a.com/" } HttpResult.failure).1,
   (claim7_effect_is_record [("x", ⟨1, 1⟩)] { url := "http://a.com/" } HttpResult.failure).2
     "x" (by decide)⟩

/-- If-characterization of lookup after `record`. -/
theorem lookupStats_record (m : StatsMap) (d : String) (isUp : Bool) (d2 : String) :
    lookupStats (record m d isUp) d2
      = if d2 = d then
          some { up := (statsOf m d).up + (if isUp then 1 else 0),
                 total := (statsOf m d).total + 1 }
        else lookupStats m d2 := by
  by_cases h : d2 = d
  · subst h
    rw [if_pos rfl]
    exact lookupStats_record_self m d2 isUp
  · rw [if_neg h]
    exact lookupStats_record_ne m d isUp d2 h

/-- Since `record` only reads the map through lookups, it preserves pointwise
lookup equality of maps. -/
theorem lookupStats_record_congr {m1 m2 : StatsMap}
    (h : ∀ d, lookupStats m1 d = lookupStats m2 d) (d : String) (isUp : Bool) (d2 : String) :
    lookupStats (record m1 d isUp) d2 = lookupStats (record m2 d isUp) d2 := by
  rw [lookupStats_record, lookupStats_record]
  have hst : statsOf m1 d = statsOf m2 d := by
    unfold statsOf
    rw [h d]
  rw [hst, h d2]

/-- Pointwise lookup equality is preserved by applying any outcome list. -/
theorem lookupStats_applyOutcomes_congr (os : List ProbeOutcome) :
    ∀ {m1 m2 : StatsMap}, (∀ d, lookupStats m1 d = lookupStats m2 d) →
      ∀ d, lookupStats (applyOutcomes m1 os) d = lookupStats (applyOutcomes m2 os) d := by
  induction os with
  | nil =>
      intro m1 m2 h d
      exact h d
  | cons o rest ih =>
      intro m1 m2 h d
      simp only [applyOutcomes]
      exact ih (fun d2 => lookupStats_record_congr h o.domain o.success d2) d

/-- Two successive `record` updates commute at the level of lookups. -/
theorem lookupStats_record_swap (m : StatsMap) (d1 : String) (u1 : Bool)
    (d2 : String) (u2 : Bool) (d : String) :
    lookupStats (record (record m d1 u1) d2 u2) d
      = lookupStats (record (record m d2 u2) d1 u1) d := by
  rcases eq_or_ne d d1 with rfl | hd1
  · rcases eq_or_ne d d2 with rfl | hd2
    · simp only [lookupStats_record_self, statsOf_record_self]
      cases u1 <;> cases u2 <;> simp [Nat.add_right_comm]
    · have h21 : d2 ≠ d := fun hh => hd2 hh.symm
      rw [lookupStats_record_ne _ _ _ _ hd2, lookupStats_record_self,
        lookupStats_record_self, statsOf_record_ne _ _ _ _ hd2]
  · rcases eq_or_ne d d2 with rfl | hd2
    · rw [lookupStats_record_self, lookupStats_record_ne _ _ _ _ hd1,
        lookupStats_record_self, statsOf_record_ne _ _ _ _ hd1]
    · rw [lookupStats_record_ne _ _ _ _ hd2, lookupStats_record_ne _ _ _ _ hd1,
        lookupStats_record_ne _ _ _ _ hd1, lookupStats_record_ne _ _ _ _ hd2]

/-- Permuting the outcome list does not change any lookup of the result. -/
theorem lookupStats_applyOutcomes_perm {os1 os2 : List ProbeOutcome} (hp : os1.Perm os2) :
    ∀ (m : StatsMap) (d : String),
      lookupStats (applyOutcomes m os1) d = lookupStats (applyOutcomes m os2) d := by
  induction hp with
  | nil =>
      intro m d
      rfl
  | cons o _ ih =>
      intro m d
      simp only [applyOutcomes]
      exact ih _ d
  | swap x y rest =>
      intro m d
      simp only [applyOutcomes]
      exact lookupStats_applyOutcomes_congr rest
        (fun d2 => lookupStats_record_swap m y.domain y.success x.domain x.success d2) d
  | trans _ _ ih1 ih2 =>
      intro m d
      exact (ih1 m d).trans (ih2 m d)

/-- Claim C8: accumulation is commutative — any permutation of the outcomes
yields identical per-domain counters and identical reported percentages; in
particular [A-up, B-down, A-down] yields A = {1,2} reported 50 % and
B = {0,1} reported 0 %. -/
theorem claim8_order_invariance (m : StatsMap) (os1 os2 : List ProbeOutcome)
    (hp : os1.Perm os2) :
    (∀ d, lookupStats (applyOutcomes m os1) d = lookupStats (applyOutcomes m os2) d) ∧
    (∀ d, reportedPct (applyOutcomes m os1) d = reportedPct (applyOutcomes m os2) d) ∧
    lookupStats (applyOutcomes [] [⟨"A", true⟩, ⟨"B", false⟩, ⟨"A", false⟩]) "A"
      = some ⟨1, 2⟩ ∧
    availability ⟨1, 2⟩ = 50 ∧
    lookupStats (applyOutcomes [] [⟨"A", true⟩, ⟨"B", false⟩, ⟨"A", false⟩]) "B"
      = some ⟨0, 1⟩ ∧
    availability ⟨0, 1⟩ = 0 := by
  refine ⟨fun d => lookupStats_applyOutcomes_perm hp m d, fun d => ?_,
    by decide, ?_, by decide, ?_⟩
  · unfold reportedPct
    rw [lookupStats_applyOutcomes_perm hp m d]
  · norm_num [availability, roundHalfEven]
  · norm_num [availability, roundHalfEven]

/-- Witness for C8 at a concrete permutation. -/
theorem claim8_order_invariance_witness :
    lookupStats (applyOutcomes [] [⟨"A", true⟩, ⟨"B", false⟩, ⟨"A", false⟩]) "A"
      = lookupStats (applyOutcomes [] [⟨"B", false⟩, ⟨"A", false⟩, ⟨"A", true⟩]) "A" ∧
    reportedPct (applyOutcomes [] [⟨"A", true⟩, ⟨"B", false⟩, ⟨"A", false⟩]) "B"
      = reportedPct (applyOutcomes [] [⟨"B", false⟩, ⟨"A", false⟩, ⟨"A", true⟩]) "B" ∧
    availability ⟨1, 2⟩ = 50 :=
  ⟨(claim8_order_invariance [] [⟨"A", true⟩, ⟨"B", false⟩, ⟨"A", false⟩]
      [⟨"B", false⟩, ⟨"A", false⟩, ⟨"A", true⟩] (by decide)).1 "A",
   (claim8_order_invariance [] [⟨"A", true⟩, ⟨"B", false⟩, ⟨"A", false⟩]
      [⟨"B", false⟩, ⟨"A", false⟩, ⟨"A", true⟩] (by decide)).2.1 "B",
   (claim8_order_invariance [] [⟨"A", true⟩, ⟨"B", false⟩, ⟨"A", false⟩]
      [⟨"B", false⟩, ⟨"A", false⟩, ⟨"A", true⟩] (by decide)).2.2.2.1⟩

/-- Counterexample to C9 as stated: a cancellation observed during a cycle
does not make the loop exit before the next sleep — after the in-flight
cycle completes, the loop still enters the sleep phase (only the cycle
after the sleep is skipped). -/
theorem claim9_counterexample :
    runEvents { phase := Phase.check, running := true }
        [Event.tick, Event.interrupt, Event.tick]
      = { phase := Phase.sleeping, running := false } ∧
    loopStep { phase := Phase.sleeping, running := false }
      = { phase := Phase.check, running := false } ∧
    loopStep { phase := Phase.check, running := false }
      = { phase := Phase.stopped, running := false } := by
  decide

/-- Claim C9 (amended): once the cancellation flag is false it never becomes
true again; from any state outside the cycle phase with the flag cleared, no
later state re-enters the cycle phase (the flag is only consulted at the top
of each iteration), and an in-flight cycle always completes into the sleep
phase — cancellation never aborts it. -/
theorem claim9_cancellation (s : LoopState) (es : List Event) (b : Bool)
    (h1 : s.running = false) (h2 : s.phase ≠ Phase.cycle) :
    (runEvents s es).running = false ∧
    (runEvents s es).phase ≠ Phase.cycle ∧
    loopStep { phase := Phase.cycle, running := b }
      = { phase := Phase.sleeping, running := b } := by
  have key : ∀ (es : List Event) (s : LoopState), s.running = false →
      s.phase ≠ Phase.cycle →
      (runEvents s es).running = false ∧ (runEvents s es).phase ≠ Phase.cycle := by
    intro es
    induction es with
    | nil =>
        intro s h1 h2
        exact ⟨h1, h2⟩
    | cons e rest ih =>
        rintro ⟨ph, r⟩ h1 h2
        simp only at h1
        subst h1
        cases e with
        | interrupt =>
            exact ih ⟨ph, false⟩ rfl h2
        | tick =>
            cases ph with
            | check => exact ih ⟨Phase.stopped, false⟩ rfl (by decide)
            | cycle => exact absurd rfl h2
            | sleeping => exact ih ⟨Phase.check, false⟩ rfl (by decide)
            | stopped => exact ih ⟨Phase.stopped, false⟩ rfl (by decide)
  exact ⟨(key es s h1 h2).1, (key es s h1 h2).2, rfl⟩

/-- Witness for the amended C9 at a concrete input. -/
theorem claim9_cancellation_witness :
    (runEvents ⟨Phase.sleeping, false⟩ [Event.tick, Event.tick]).running = false ∧
    (runEvents ⟨Phase.sleeping, false⟩ [Event.tick, Event.tick]).phase ≠ Phase.cycle ∧
    loopStep { phase := Phase.cycle, running := false }
      = { phase := Phase.sleeping, running := false } :=
  claim9_cancellation ⟨Phase.sleeping, false⟩ [Event.tick, Event.tick] false rfl (by decide)

end EPM
